import Mathlib

set_option maxRecDepth 100000

/-!
Verification of the bm6-battery-monitor protocol engine.

This file gives a shallow embedding, in Lean 4, of the pure computational
core of the repository: the AES-based block codec, the live-reading parser,
the heuristic voltage / timestamp / temperature extractors, the history
deduplication pass, the retry wrapper, and the history summary.  Python
`bytes` values are modelled as `List Char` hex strings or as lists of bytes
(`Fin 256`), Python `float` arithmetic on exact decimal quantities is
modelled by `ℚ`, Python `datetime` values by their timestamp in seconds
(`ℚ`), and raising code is modelled in the `Except` monad with `tryCatch`
standing for `try`/`except`.  Theorems at the end of each section settle the
behavioural properties of the corresponding source functions.
-/

namespace BM6

/-! ## Hex-string utilities

Python's `int(s, 16)` and string slicing, as used throughout the scripts.
`int(s, 16)` raises `ValueError` on an empty or non-hex-digit string, which
the embedding models by returning `none`.
-/

/-- Value of a single hexadecimal digit, accepting the same digit characters
as Python's `int(s, 16)` (0-9, a-f, A-F). -/
def hexDigit? (c : Char) : Option Nat :=
  if '0' ≤ c ∧ c ≤ '9' then some (c.toNat - ('0').toNat)
  else if 'a' ≤ c ∧ c ≤ 'f' then some (c.toNat - ('a').toNat + 10)
  else if 'A' ≤ c ∧ c ≤ 'F' then some (c.toNat - ('A').toNat + 10)
  else none

/-- Accumulating core of hex-string parsing. -/
def hexCore : List Char → Nat → Option Nat
  | [], acc => some acc
  | c :: cs, acc =>
    match hexDigit? c with
    | some d => hexCore cs (16 * acc + d)
    | none => none

/-- Parse a hex string to a natural number; `none` models Python's
`int(s, 16)` raising `ValueError` (empty string or invalid digit). -/
def hexNat? (s : List Char) : Option Nat :=
  if s.isEmpty then none else hexCore s 0

/-- Python slice `s[i:j]` on a string viewed as a character list; like the
Python operation it clamps out-of-range bounds instead of failing. -/
def pySlice (s : List Char) (i j : Nat) : List Char :=
  (s.drop i).take (j - i)

/-! ## Live-reading parse

`bm6-battery-monitor.py` (`notification_handler`, lines 193-200) and
`bm6_robust_history.py` (`get_current_data`, lines 213-218) decode a
decrypted live-reading block with identical fixed offsets:

  voltage = int(decrypted[15:18], 16) / 100
  temp_flag = decrypted[6:8]
  temperature = -int(decrypted[8:10], 16) if temp_flag == "01" else int(...)
  soc = int(decrypted[12:14], 16)

guarded by `decrypted.startswith('d15507')` (and, in `get_current_data`,
`len(decrypted) >= 18`).  A failed `int` conversion is caught by the
surrounding `try`/`except`, so the parse is all-or-nothing, which the
embedding models with `Option`.
-/

/-- Canonical live-reading message head `d15507`. -/
def liveHead : List Char := "d15507".toList

/-- Temperature-sign flag value `01` (negative temperature). -/
def negFlag : List Char := "01".toList

/-- Temperature-sign flag value `00` (positive temperature). -/
def posFlag : List Char := "00".toList

/-- Result of a successful live-reading parse. -/
structure LiveData where
  voltage : ℚ
  temperature : Int
  soc : Nat
deriving DecidableEq

/-- Embedding of the live-reading parse shared by
`notification_handler` (bm6-battery-monitor.py) and `get_current_data`
(bm6_robust_history.py): fixed offsets 15-18 (voltage, scaled by 1/100),
6-8 (temperature-sign flag), 8-10 (temperature magnitude), 12-14
(state of charge). -/
def get_current_data_parse (d : List Char) : Option LiveData :=
  if pySlice d 0 6 = liveHead ∧ 18 ≤ d.length then
    match hexNat? (pySlice d 15 18), hexNat? (pySlice d 8 10),
          hexNat? (pySlice d 12 14) with
    | some v, some t, some s =>
      some { voltage := (v : ℚ) / 100
           , temperature := if pySlice d 6 8 = negFlag then -(t : Int) else (t : Int)
           , soc := s }
    | _, _, _ => none
  else none

/-- Spec fixture plaintext `d1550700640c00000000000000000e64`. -/
def fixtureC2 : List Char := "d1550700640c00000000000000000e64".toList

/-- C2 counterexample: on the fixture plaintext the code's live-reading
parse yields temperature 100 (the byte at hex offset 8-10 is 0x64), not the
claimed 12 (which would be the byte at offset 10-12). -/
theorem live_parse_fixture_temp_not_12 :
    Option.map LiveData.temperature (get_current_data_parse fixtureC2) = some 100 ∧
    (100 : Int) ≠ 12 := by
  constructor
  · decide
  · decide

/-- C2 amended: the live-reading parse of the fixture plaintext
`d1550700640c00000000000000000e64` extracts voltage 0 (hex field at offset
15-18 is `000`, divided by 100), temperature 100 (byte 0x64 at offset 8-10,
flag `00` at offset 6-8 so positive), and soc 0 (byte at offset 12-14). -/
theorem live_parse_fixture_values :
    get_current_data_parse fixtureC2 =
      some { voltage := 0, temperature := 100, soc := 0 } := by
  rw [get_current_data_parse, if_pos (by constructor <;> decide),
    show hexNat? (pySlice fixtureC2 15 18) = some 0 from by decide,
    show hexNat? (pySlice fixtureC2 8 10) = some 100 from by decide,
    show hexNat? (pySlice fixtureC2 12 14) = some 0 from by decide]
  simp only [Option.some.injEq, LiveData.mk.injEq,
    if_neg (by decide : ¬ pySlice fixtureC2 6 8 = negFlag)]
  norm_num

/-- C3: in the live-reading parse, a temperature flag of `01` with magnitude
byte 5 yields temperature -5, and a flag of `00` with magnitude 5 yields
temperature 5 (on any block whose remaining live-reading fields parse). -/
theorem live_parse_temperature_sign (d₁ d₂ : List Char)
    (hp₁ : pySlice d₁ 0 6 = liveHead) (hl₁ : 18 ≤ d₁.length)
    (hf₁ : pySlice d₁ 6 8 = negFlag) (ht₁ : hexNat? (pySlice d₁ 8 10) = some 5)
    (hv₁ : (hexNat? (pySlice d₁ 15 18)).isSome)
    (hs₁ : (hexNat? (pySlice d₁ 12 14)).isSome)
    (hp₂ : pySlice d₂ 0 6 = liveHead) (hl₂ : 18 ≤ d₂.length)
    (hf₂ : pySlice d₂ 6 8 = posFlag) (ht₂ : hexNat? (pySlice d₂ 8 10) = some 5)
    (hv₂ : (hexNat? (pySlice d₂ 15 18)).isSome)
    (hs₂ : (hexNat? (pySlice d₂ 12 14)).isSome) :
    Option.map LiveData.temperature (get_current_data_parse d₁) = some (-5) ∧
    Option.map LiveData.temperature (get_current_data_parse d₂) = some 5 := by
  obtain ⟨v₁, hv₁⟩ := Option.isSome_iff_exists.mp hv₁
  obtain ⟨s₁, hs₁⟩ := Option.isSome_iff_exists.mp hs₁
  obtain ⟨v₂, hv₂⟩ := Option.isSome_iff_exists.mp hv₂
  obtain ⟨s₂, hs₂⟩ := Option.isSome_iff_exists.mp hs₂
  constructor
  · simp [get_current_data_parse, hp₁, hl₁, hf₁, ht₁, hv₁, hs₁]
  · have hne : pySlice d₂ 6 8 ≠ negFlag := by
      rw [hf₂]; decide
    simp [get_current_data_parse, hp₂, hl₂, hne, ht₂, hv₂, hs₂]

/-- Concrete block with flag `01` and magnitude 5 for the C3 witness. -/
def fixtureNeg5 : List Char := "d1550701050000000000000000000000".toList

/-- Concrete block with flag `00` and magnitude 5 for the C3 witness. -/
def fixturePos5 : List Char := "d1550700050000000000000000000000".toList

/-- Witness for C3 on concrete blocks with flags `01` and `00`. -/
theorem live_parse_temperature_sign_witness :
    Option.map LiveData.temperature (get_current_data_parse fixtureNeg5) = some (-5) ∧
    Option.map LiveData.temperature (get_current_data_parse fixturePos5) = some 5 :=
  live_parse_temperature_sign fixtureNeg5 fixturePos5
    (by decide) (by decide) (by decide) (by decide) (by decide) (by decide)
    (by decide) (by decide) (by decide) (by decide) (by decide) (by decide)

/-- C10: the live-reading parse negates the temperature magnitude exactly
when the flag hex pair equals `01`; every other flag value yields the
positive magnitude. -/
theorem live_parse_negation_iff (d : List Char) (t : Nat)
    (hp : pySlice d 0 6 = liveHead) (hl : 18 ≤ d.length)
    (ht : hexNat? (pySlice d 8 10) = some t)
    (hv : (hexNat? (pySlice d 15 18)).isSome)
    (hs : (hexNat? (pySlice d 12 14)).isSome) :
    Option.map LiveData.temperature (get_current_data_parse d) =
      some (if pySlice d 6 8 = negFlag then -(t : Int) else (t : Int)) := by
  obtain ⟨v, hv⟩ := Option.isSome_iff_exists.mp hv
  obtain ⟨s, hs⟩ := Option.isSome_iff_exists.mp hs
  simp [get_current_data_parse, hp, hl, ht, hv, hs]

/-- Concrete block with the non-standard flag `ff` for the C10 witness. -/
def fixtureFlagFF : List Char := "d15507ff050000000000000000000000".toList

/-- Witness for C10: flag `ff` (neither `00` nor `01`) yields the positive
magnitude 5. -/
theorem live_parse_negation_iff_witness :
    Option.map LiveData.temperature (get_current_data_parse fixtureFlagFF) = some 5 := by
  have h := live_parse_negation_iff fixtureFlagFF 5
    (by decide) (by decide) (by decide) (by decide) (by decide)
  rw [if_neg (by decide : ¬ pySlice fixtureFlagFF 6 8 = negFlag)] at h
  exact h

/-! ## Voltage-scan extraction

`bm6_complete_history.py`, `extract_voltages_from_response` (lines 85-129):
for every 2-aligned window `i` in `range(0, len(hex_data) - 3, 2)` the code
interprets `hex_data[i:i+4]` as a big-endian 16-bit value and
`hex_data[i+2:i+4] + hex_data[i:i+2]` as the little-endian value, keeps those
in `[600, 2000]` as voltage candidates (`high` confidence iff the value is in
`[1000, 1500]`, else `medium`), sorts the candidates by the key
`(confidence == 'high', position)` (Python's stable sort, so `medium` sorts
before `high`), and keeps only the first candidate seen at each position.
A window whose digits fail `int(_, 16)` is skipped by `except: continue`;
an append performed before such a failure survives it.
-/

/-- Confidence tag carried by a voltage candidate (`'high'` / `'medium'`). -/
inductive Confidence where
  | high : Confidence
  | medium : Confidence
deriving DecidableEq

/-- Byte order of a candidate interpretation (`'big'` / `'little'`). -/
inductive Endian where
  | big : Endian
  | little : Endian
deriving DecidableEq

/-- One voltage candidate dict produced by `extract_voltages_from_response`. -/
structure VoltCand where
  voltage : ℚ
  position : Nat
  raw_bytes : List Char
  endian : Endian
  confidence : Confidence
deriving DecidableEq

/-- Indices produced by Python's `range(0, stop, 2)`. -/
def pyRangeStep2 (stop : Nat) : List Nat :=
  (List.range ((stop + 1) / 2)).map (· * 2)

/-- Loop body of `extract_voltages_from_response` for one window index `i`,
threading the accumulated candidate list: a failed hex parse skips the rest
of the body (`except: continue`) but keeps appends already performed. -/
def scanWindow (hex : List Char) (acc : List VoltCand) (i : Nat) : List VoltCand :=
  match hexNat? (pySlice hex i (i + 4)) with
  | none => acc
  | some be =>
    let acc₁ := if 600 ≤ be ∧ be ≤ 2000 then
        acc ++ [{ voltage := (be : ℚ) / 100, position := i
                , raw_bytes := pySlice hex i (i + 4), endian := .big
                , confidence := if 1000 ≤ be ∧ be ≤ 1500 then .high else .medium }]
      else acc
    if i + 4 ≤ hex.length then
      match hexNat? (pySlice hex (i + 2) (i + 4) ++ pySlice hex i (i + 2)) with
      | none => acc₁
      | some le =>
        if 600 ≤ le ∧ le ≤ 2000 then
          acc₁ ++ [{ voltage := (le : ℚ) / 100, position := i
                   , raw_bytes := pySlice hex i (i + 4), endian := .little
                   , confidence := if 1000 ≤ le ∧ le ≤ 1500 then .high else .medium }]
        else acc₁
    else acc₁

/-- Rank of the sort key `confidence == 'high'` (False sorts before True). -/
def confRank : Confidence → Nat
  | .medium => 0
  | .high => 1

/-- Strict comparison on the Python sort key `(confidence == 'high', position)`. -/
def candKeyLt (a b : VoltCand) : Bool :=
  confRank a.confidence < confRank b.confidence ∨
    (confRank a.confidence = confRank b.confidence ∧ a.position < b.position)

/-- Stable insertion of a later element after all equal-key earlier ones. -/
def insertSorted (x : VoltCand) : List VoltCand → List VoltCand
  | [] => [x]
  | y :: ys => if candKeyLt x y then x :: y :: ys else y :: insertSorted x ys

/-- Stable sort by `(confidence == 'high', position)`; agrees with Python's
stable `list.sort(key=...)`. -/
def sortByKey (l : List VoltCand) : List VoltCand :=
  l.foldl (fun acc x => insertSorted x acc) []

/-- Keep only the first candidate seen at each position (`seen_positions`). -/
def uniqueByPosition : List VoltCand → List Nat → List VoltCand
  | [], _ => []
  | v :: vs, seen =>
    if v.position ∈ seen then uniqueByPosition vs seen
    else v :: uniqueByPosition vs (v.position :: seen)

/-- Embedding of `extract_voltages_from_response` (bm6_complete_history.py,
lines 85-129). -/
def extract_voltages_from_response (hex : List Char) : List VoltCand :=
  uniqueByPosition (sortByKey ((pyRangeStep2 (hex.length - 3)).foldl (scanWindow hex) [])) []

/-- C4: on a single 4-hex-digit window whose little-endian reading is out of
range, the voltage scan produces a candidate exactly when the big-endian
value lies in [600, 2000], scaled by 1/100, with confidence `high` exactly
when the value lies in [1000, 1500] and `medium` otherwise. -/
theorem voltage_scan_window (s : List Char) (vbe vle : Nat)
    (hlen : s.length = 4)
    (hbe : hexNat? s = some vbe)
    (hle : hexNat? (pySlice s 2 4 ++ pySlice s 0 2) = some vle)
    (hout : ¬ (600 ≤ vle ∧ vle ≤ 2000)) :
    extract_voltages_from_response s =
      if 600 ≤ vbe ∧ vbe ≤ 2000 then
        [{ voltage := (vbe : ℚ) / 100, position := 0, raw_bytes := s, endian := .big
         , confidence := if 1000 ≤ vbe ∧ vbe ≤ 1500 then .high else .medium }]
      else [] := by
  have hslice : pySlice s 0 4 = s := by
    simp only [pySlice, List.drop_zero, Nat.sub_zero]
    exact List.take_of_length_le (le_of_eq hlen)
  rw [extract_voltages_from_response, hlen]
  show uniqueByPosition (sortByKey (List.foldl (scanWindow s) [] (pyRangeStep2 1))) [] = _
  rw [show pyRangeStep2 1 = [0] from rfl]
  show uniqueByPosition (sortByKey (scanWindow s [] 0)) [] = _
  rw [scanWindow]
  simp only [Nat.zero_add, hslice, hbe, hlen, hle]
  rw [if_neg hout, if_pos (by omega : 0 + 4 ≤ 4)]
  by_cases h : 600 ≤ vbe ∧ vbe ≤ 2000
  · rw [if_pos h, if_pos h]
    rfl
  · rw [if_neg h, if_neg h]
    rfl

/-- Window `0258`, big-endian value 600. -/
def w600 : List Char := "0258".toList

/-- Window `05db`, big-endian value 1499. -/
def w1499 : List Char := "05db".toList

/-- Window `0257`, big-endian value 599. -/
def w599 : List Char := "0257".toList

/-- Window `07d1`, big-endian value 2001. -/
def w2001 : List Char := "07d1".toList

/-- Witness for C4 at the claim's boundary values: 600 yields a medium 6.00 V
candidate, 1499 a high 14.99 V candidate, and 599 / 2001 no candidate. -/
theorem voltage_scan_window_witness :
    extract_voltages_from_response w600 =
      [{ voltage := 6, position := 0, raw_bytes := w600, endian := .big
       , confidence := .medium }] ∧
    extract_voltages_from_response w1499 =
      [{ voltage := 1499 / 100, position := 0, raw_bytes := w1499, endian := .big
       , confidence := .high }] ∧
    extract_voltages_from_response w599 = [] ∧
    extract_voltages_from_response w2001 = [] := by
  refine ⟨?_, ?_, ?_, ?_⟩
  · have h := voltage_scan_window w600 600 22530 (by decide) (by decide) (by decide) (by decide)
    rw [h, if_pos (by omega), if_neg (by omega)]
    norm_num
  · have h := voltage_scan_window w1499 1499 56069 (by decide) (by decide) (by decide) (by decide)
    rw [h, if_pos (by omega), if_pos (by omega)]
    norm_num
  · have h := voltage_scan_window w599 599 22274 (by decide) (by decide) (by decide) (by decide)
    rw [h, if_neg (by omega)]
  · have h := voltage_scan_window w2001 2001 53511 (by decide) (by decide) (by decide) (by decide)
    rw [h, if_neg (by omega)]

/-! ## History deduplication

`bm6_complete_history.py`, `get_all_history_records` final pass (lines
362-375): after sorting by timestamp descending, a reading is appended to
`unique_readings` unless some already-kept reading has
`abs(r.voltage - reading.voltage) < 0.01` **and**
`abs((r.timestamp - reading.timestamp).total_seconds()) < 300`.
(The variant in `bm6_robust_history.py` lines 288-301 compares voltages
only.)  Timestamps are modelled in seconds as `ℚ`.
-/

/-- The `HistoryReading` dataclass of bm6_complete_history.py.  Timestamps
are seconds since the epoch. -/
structure HistoryReading where
  voltage : ℚ
  timestamp : ℚ
  raw_data : List Char
  source_command : List Char
  record_index : Nat
  confidence : Confidence
  temperature : Option ℚ
  soc : Option Nat
deriving DecidableEq

/-- Duplicate test of the final dedup pass: `u` is an already-kept reading,
`x` the incoming one; voltages within 0.01 and timestamps within 300
seconds (both strict). -/
def IsDup (u x : HistoryReading) : Prop :=
  |u.voltage - x.voltage| < 1 / 100 ∧ |u.timestamp - x.timestamp| < 300

instance (u x : HistoryReading) : Decidable (IsDup u x) := by
  unfold IsDup; infer_instance

/-- Worker of the final dedup pass, accumulating `unique_readings`. -/
def dedupGo : List HistoryReading → List HistoryReading → List HistoryReading
  | acc, [] => acc
  | acc, r :: rs =>
    if ∃ u ∈ acc, IsDup u r then dedupGo acc rs else dedupGo (acc ++ [r]) rs

/-- Embedding of the final deduplication pass of `get_all_history_records`
(bm6_complete_history.py, lines 366-375). -/
def finalDedupPass (l : List HistoryReading) : List HistoryReading :=
  dedupGo [] l

/-- Freshness of a suffix with respect to an accumulator: every element is a
non-duplicate of the accumulator extended with the elements before it. -/
def Fresh : List HistoryReading → List HistoryReading → Prop
  | _, [] => True
  | acc, r :: rs => ¬ (∃ u ∈ acc, IsDup u r) ∧ Fresh (acc ++ [r]) rs

/-- A fresh suffix passes through the dedup worker untouched. -/
theorem dedupGo_of_fresh : ∀ (m acc : List HistoryReading), Fresh acc m →
    dedupGo acc m = acc ++ m := by
  intro m
  induction m with
  | nil => intro acc _; simp [dedupGo]
  | cons r rs ih =>
    intro acc h
    obtain ⟨h1, h2⟩ := h
    simp only [dedupGo, if_neg h1]
    rw [ih _ h2]
    simp

/-- The dedup worker appends a fresh suffix to its accumulator. -/
theorem dedupGo_spec : ∀ (l acc : List HistoryReading),
    ∃ m, dedupGo acc l = acc ++ m ∧ Fresh acc m := by
  intro l
  induction l with
  | nil => intro acc; exact ⟨[], by simp [dedupGo], trivial⟩
  | cons r rs ih =>
    intro acc
    by_cases h : ∃ u ∈ acc, IsDup u r
    · obtain ⟨m, hm, hf⟩ := ih acc
      exact ⟨m, by simp only [dedupGo, if_pos h]; exact hm, hf⟩
    · obtain ⟨m, hm, hf⟩ := ih (acc ++ [r])
      refine ⟨r :: m, ?_, h, hf⟩
      simp only [dedupGo, if_neg h]
      rw [hm]
      simp

/-- C9: the final deduplication pass is idempotent, and two copies of the
same reading collapse to one. -/
theorem dedup_idempotent :
    (∀ l, finalDedupPass (finalDedupPass l) = finalDedupPass l) ∧
    (∀ r, finalDedupPass [r, r] = [r]) := by
  constructor
  · intro l
    obtain ⟨m, hm, hf⟩ := dedupGo_spec l []
    have h1 : finalDedupPass l = m := by simpa [finalDedupPass] using hm
    rw [h1, finalDedupPass, dedupGo_of_fresh m [] hf]
    simp
  · intro r
    have h0 : ¬ ∃ u ∈ ([] : List HistoryReading), IsDup u r := by simp
    have h1 : ∃ u ∈ [r], IsDup u r := by
      refine ⟨r, by simp, ?_, ?_⟩ <;> · rw [sub_self, abs_zero]; norm_num
    show dedupGo [] [r, r] = [r]
    simp only [dedupGo, if_neg h0, List.nil_append, if_pos h1]

/-- Reading kept first by the pass (earlier in timestamp-descending order),
with the lower confidence. -/
def dupA : HistoryReading :=
  { voltage := 12, timestamp := 600, raw_data := [], source_command := []
  , record_index := 0, confidence := .medium, temperature := none, soc := none }

/-- Reading 600 seconds older than `dupA`, same voltage, higher confidence. -/
def dupB : HistoryReading :=
  { voltage := 12, timestamp := 0, raw_data := [], source_command := []
  , record_index := 1, confidence := .high, temperature := none, soc := none }

/-- C5 counterexample: `dupA` and `dupB` agree in voltage and are 600 s
(10 min ≤ the claimed 30-minute window) apart, so by the claim they are the
same logical reading and only the higher-confidence `dupB` should survive;
the code keeps both, because its window is 300 s, not 30 min. -/
theorem dedup_window_counterexample :
    |dupA.voltage - dupB.voltage| < 1 / 100 ∧
    |dupA.timestamp - dupB.timestamp| ≤ 30 * 60 ∧
    dupA.confidence = .medium ∧ dupB.confidence = .high ∧
    finalDedupPass [dupA, dupB] = [dupA, dupB] := by
  refine ⟨by norm_num [dupA, dupB], by norm_num [dupA, dupB], rfl, rfl, ?_⟩
  have h0 : ¬ ∃ u ∈ ([] : List HistoryReading), IsDup u dupA := by simp
  have h1 : ¬ ∃ u ∈ [dupA], IsDup u dupB := by
    simp only [List.mem_singleton, exists_eq_left, IsDup, not_and, dupA, dupB]
    intro _
    norm_num
  show dedupGo [] [dupA, dupB] = [dupA, dupB]
  simp only [dedupGo, if_neg h0, List.nil_append, if_neg h1, List.append_nil]
  rfl

/-- C5 amended: the pass treats two readings as duplicates iff their
voltages differ by less than 0.01 and their timestamps differ by less than
300 seconds (5 minutes, strict); among duplicates it keeps the one processed
first (the most recent, in the sorted order), regardless of confidence. -/
theorem dedup_pair_rule (r₁ r₂ : HistoryReading) :
    finalDedupPass [r₁, r₂] =
      if |r₁.voltage - r₂.voltage| < 1 / 100 ∧ |r₁.timestamp - r₂.timestamp| < 300
      then [r₁] else [r₁, r₂] := by
  have h0 : ¬ ∃ u ∈ ([] : List HistoryReading), IsDup u r₁ := by simp
  by_cases h : |r₁.voltage - r₂.voltage| < 1 / 100 ∧ |r₁.timestamp - r₂.timestamp| < 300
  · have h1 : ∃ u ∈ [r₁], IsDup u r₂ := ⟨r₁, by simp, h⟩
    rw [if_pos h]
    show dedupGo [] [r₁, r₂] = [r₁]
    simp only [dedupGo, if_neg h0, List.nil_append, if_pos h1]
  · have h1 : ¬ ∃ u ∈ [r₁], IsDup u r₂ := by
      simpa [IsDup] using h
    rw [if_neg h]
    show dedupGo [] [r₁, r₂] = [r₁, r₂]
    simp only [dedupGo, if_neg h0, List.nil_append, if_neg h1, List.append_nil]
    rfl

/-! ## Retry with exponential backoff

`bm6-battery-monitor.py`, `retry_with_backoff` (lines 67-96): up to
`MAX_RETRIES` attempts; after a failed attempt `attempt` (0-based) that is
not the last, the code sleeps `RETRY_DELAY_BASE * (2 ** attempt)` seconds;
when every attempt fails the last exception is re-raised.  The embedding
returns the outcome together with the number of attempts made and the list
of back-off delays slept; `Except.error none` models Python's
`raise last_exception` when no attempt ever ran (`last_exception = None`).
-/

/-- Worker for `retry_with_backoff`: `fuel` is the number of attempts left,
`attempt` the 0-based index of the next attempt, `last` the last exception
seen.  Returns (outcome, attempts made, delays slept). -/
def retryGo {ε α : Type} (op : Nat → Except ε α) (base : ℚ) :
    Nat → Nat → Option ε → Except (Option ε) α × Nat × List ℚ
  | 0, _, last => (.error last, 0, [])
  | fuel + 1, attempt, _ =>
    match op attempt with
    | .ok a => (.ok a, 1, [])
    | .error e =>
      let r := retryGo op base fuel (attempt + 1) (some e)
      if fuel = 0 then (r.1, r.2.1 + 1, r.2.2)
      else (r.1, r.2.1 + 1, base * 2 ^ attempt :: r.2.2)

/-- Embedding of `retry_with_backoff` (bm6-battery-monitor.py, lines 67-96)
for a given retry limit and base delay. -/
def retry_with_backoff {ε α : Type} (op : Nat → Except ε α) (base : ℚ)
    (maxRetries : Nat) : Except (Option ε) α × Nat × List ℚ :=
  retryGo op base maxRetries 0 none

/-- C6: with a retry limit of 3 and an operation that always fails, the
wrapper makes exactly 3 attempts, surfaces the last error (that of attempt
index 2), and sleeps `base * 2 ^ 0` before the second attempt and
`base * 2 ^ 1` before the third. -/
theorem retry_always_fails {ε α : Type} (op : Nat → Except ε α) (e : Nat → ε)
    (base : ℚ) (h : ∀ i, op i = .error (e i)) :
    retry_with_backoff op base 3 =
      (.error (some (e 2)), 3, [base * 2 ^ 0, base * 2 ^ 1]) := by
  simp [retry_with_backoff, retryGo, h 0, h 1, h 2]

/-- Witness for C6: the always-failing operation returning its attempt index
as the error, with base delay 1. -/
theorem retry_always_fails_witness :
    retry_with_backoff (fun i => (.error i : Except Nat Unit)) 1 3 =
      (.error (some 2), 3, [(1 : ℚ) * 2 ^ 0, 1 * 2 ^ 1]) :=
  retry_always_fails (fun i => .error i) (fun i => i) 1 (fun _ => rfl)

/-! ## History summary

`bm6_complete_history.py`, `get_history_summary` (lines 380-417): with no
records it returns a dict `{total_records: 0, date_range: None,
voltage_range: None, error: 'No history records found'}` instead of raising;
otherwise it computes date range, voltage statistics and a confidence
histogram.  Python's `min`/`max` (which raise on an empty sequence) are
modelled in `Except`; the empty-case key `voltage_range: None` is modelled
by the `voltage_statistics` field being `none`.
-/

/-- Error message of the empty-history summary. -/
def noHistoryMsg : List Char := "No history records found".toList

/-- The `date_range` sub-dict of a history summary. -/
structure DateRange where
  start : ℚ
  stop : ℚ
  span_hours : ℚ
deriving DecidableEq

/-- The `voltage_statistics` sub-dict of a history summary. -/
structure VoltageStats where
  vmin : ℚ
  vmax : ℚ
  average : ℚ
  vrange : ℚ
deriving DecidableEq

/-- The `data_quality` sub-dict of a history summary. -/
structure DataQuality where
  high_confidence : Nat
  medium_confidence : Nat
  with_temperature : Nat
deriving DecidableEq

/-- The summary dict returned by `get_history_summary`. -/
structure HistorySummary where
  total_records : Nat
  date_range : Option DateRange
  voltage_statistics : Option VoltageStats
  data_quality : Option DataQuality
  error : Option (List Char)
deriving DecidableEq

/-- Python's `min` over a list, raising on an empty sequence. -/
def pyMin (l : List ℚ) : Except Unit ℚ :=
  match l with
  | [] => .error ()
  | x :: xs => .ok (xs.foldl min x)

/-- Python's `max` over a list, raising on an empty sequence. -/
def pyMax (l : List ℚ) : Except Unit ℚ :=
  match l with
  | [] => .error ()
  | x :: xs => .ok (xs.foldl max x)

/-- Embedding of `get_history_summary` (bm6_complete_history.py, lines
380-417), as a function of the retrieved records. -/
def get_history_summary (records : List HistoryReading) : Except Unit HistorySummary :=
  if records.isEmpty then
    .ok { total_records := 0, date_range := none, voltage_statistics := none
        , data_quality := none, error := some noHistoryMsg }
  else do
    let voltages := records.map (·.voltage)
    let timestamps := records.map (·.timestamp)
    let tmin ← pyMin timestamps
    let tmax ← pyMax timestamps
    let vmin ← pyMin voltages
    let vmax ← pyMax voltages
    .ok { total_records := records.length
        , date_range := some { start := tmin, stop := tmax
                             , span_hours := (tmax - tmin) / 3600 }
        , voltage_statistics :=
            some { vmin := vmin, vmax := vmax
                 , average := (voltages.foldl (· + ·) 0) / records.length
                 , vrange := vmax - vmin }
        , data_quality :=
            some { high_confidence := records.countP (fun r => r.confidence == .high)
                 , medium_confidence := records.countP (fun r => r.confidence == .medium)
                 , with_temperature := records.countP (fun r => r.temperature.isSome) }
        , error := none }

/-- C8: on an empty record set the summary operation does not raise; it
returns a summary reporting zero records and the empty-history error
indicator. -/
theorem history_summary_empty :
    get_history_summary [] =
      .ok { total_records := 0, date_range := none, voltage_statistics := none
          , data_quality := none, error := some noHistoryMsg } := rfl

/-! ## Exception model of the classifier extractors

`parse_timestamp_from_data` (bm6_complete_history.py lines 46-83),
`extract_voltages_from_response` (lines 85-129) and
`parse_temperature_from_data` (lines 131-143) wrap every fallible operation
(`int(_, 16)`, `bytes.fromhex`, `struct.unpack`) in `try`/`except` clauses
that skip the offending window.  The embedding makes the fallible
operations `Except Unit` computations and models each `try`/`except` with
`pyCatch`; the totality theorems show the catch placement covers every
raise point, for arbitrary input strings.  `datetime` values are seconds
(`ℚ`): `datetime.now()` is the parameter `now`, `int(time.time())` is
`nowInt`, `datetime.fromtimestamp v` is `(v : ℚ)`, and
`timedelta(hours=h)` is `3600 * h`.
-/

/-- Python's `int(s, 16)`, raising on an empty or non-hex string. -/
def pyIntHex (s : List Char) : Except Unit Nat :=
  match hexNat? s with
  | some v => .ok v
  | none => .error ()

/-- A `try`/`except` block around `m` whose handler evaluates to `fb`. -/
def pyCatch {α : Type} (m : Except Unit α) (fb : α) : Except Unit α :=
  match m with
  | .ok a => .ok a
  | .error _ => .ok fb

/-- Byte-swapped hex digits of an 8-digit window, as produced by
`struct.unpack('<I', bytes.fromhex(w))`. -/
def leReorder32 (w : List Char) : List Char :=
  pySlice w 6 8 ++ pySlice w 4 6 ++ pySlice w 2 4 ++ pySlice w 0 2

/-- Python's `struct.unpack('<I', bytes.fromhex(w))[0]`, raising unless `w`
is exactly 8 valid hex digits. -/
def pyUnpackLE32 (w : List Char) : Except Unit Nat :=
  if w.length = 8 then pyIntHex (leReorder32 w) else .error ()

/-- Strategy-1 loop body of `parse_timestamp_from_data`: 32-bit big- then
little-endian timestamps in `[1600000000, now + 86400]`. -/
def tsBody1 (hex : List Char) (nowInt : Nat) (i : Nat) : Except Unit (Option ℚ) :=
  pyCatch (do
    let be ← pyIntHex (pySlice hex i (i + 8))
    if 1600000000 ≤ be ∧ be ≤ nowInt + 86400 then
      pure (some (be : ℚ))
    else if i + 8 ≤ hex.length then do
      let le ← pyUnpackLE32 (pySlice hex i (i + 8))
      if 1600000000 ≤ le ∧ le ≤ nowInt + 86400 then
        pure (some (le : ℚ))
      else pure none
    else pure none) none

/-- Strategy-2 loop body of `parse_timestamp_from_data`: 16-bit hours-ago
offsets below 8760. -/
def tsBody2 (hex : List Char) (now : ℚ) (i : Nat) : Except Unit (Option ℚ) :=
  pyCatch (do
    let off ← pyIntHex (pySlice hex i (i + 4))
    if off < 8760 then pure (some (now - 3600 * off)) else pure none) none

/-- First-match-wins loop over window indices. -/
def firstSomeE {α : Type} (f : Nat → Except Unit (Option α)) :
    List Nat → Except Unit (Option α)
  | [] => .ok none
  | i :: rest => do
    match ← f i with
    | some v => pure (some v)
    | none => firstSomeE f rest

/-- Embedding of `parse_timestamp_from_data` (bm6_complete_history.py,
lines 46-83): strategy 1 (32-bit timestamps), strategy 2 (hours-ago
offsets), then the estimated fallback
`now - record_index * 15 minutes`. -/
def parse_timestamp_from_data (hex : List Char) (record_index : Nat)
    (now : ℚ) (nowInt : Nat) : Except Unit ℚ := do
  match ← firstSomeE (tsBody1 hex nowInt) (pyRangeStep2 (hex.length - 7)) with
  | some t => pure t
  | none =>
    match ← firstSomeE (tsBody2 hex now) (pyRangeStep2 (hex.length - 3)) with
    | some t => pure t
    | none => pure (now - (record_index : ℚ) * 900)

/-- Raising part of the voltage-scan loop body (the `try` block), threading
the accumulated candidate list so appends made before a raise survive it. -/
def scanBodyRaw (hex : List Char) (acc : List VoltCand) (i : Nat) :
    Except Unit (List VoltCand) := do
  let be ← pyIntHex (pySlice hex i (i + 4))
  let acc₁ := if 600 ≤ be ∧ be ≤ 2000 then
      acc ++ [{ voltage := (be : ℚ) / 100, position := i
              , raw_bytes := pySlice hex i (i + 4), endian := .big
              , confidence := if 1000 ≤ be ∧ be ≤ 1500 then .high else .medium }]
    else acc
  if i + 4 ≤ hex.length then do
    let le ← pyIntHex (pySlice hex (i + 2) (i + 4) ++ pySlice hex i (i + 2))
    if 600 ≤ le ∧ le ≤ 2000 then
      pure (acc₁ ++ [{ voltage := (le : ℚ) / 100, position := i
                     , raw_bytes := pySlice hex i (i + 4), endian := .little
                     , confidence := if 1000 ≤ le ∧ le ≤ 1500 then .high else .medium }])
    else pure acc₁
  else pure acc₁

/-- The voltage-scan loop with each iteration's `try`/`except`. -/
def scanFoldE (hex : List Char) : List Nat → List VoltCand → Except Unit (List VoltCand)
  | [], acc => pure acc
  | i :: rest, acc => do
    let acc' ← pyCatch (scanBodyRaw hex acc i) acc
    scanFoldE hex rest acc'

/-- Exception-monad version of `extract_voltages_from_response`. -/
def extract_voltages_E (hex : List Char) : Except Unit (List VoltCand) := do
  let voltages ← scanFoldE hex (pyRangeStep2 (hex.length - 3)) []
  pure (uniqueByPosition (sortByKey voltages) [])

/-- Embedding of `parse_temperature_from_data` (bm6_complete_history.py,
lines 131-143): flag pair at offset 6-8 restricted to `00`/`01`, magnitude
at offset 8-10 bounded by 100. -/
def parse_temperature_from_data (hex : List Char) : Option Int :=
  if 10 ≤ hex.length then
    if pySlice hex 6 8 = posFlag ∨ pySlice hex 6 8 = negFlag then
      match hexNat? (pySlice hex 8 10) with
      | some tv =>
        if tv ≤ 100 then
          some (if pySlice hex 6 8 = negFlag then -(tv : Int) else (tv : Int))
        else none
      | none => none
    else none
  else none

/-- Exception-monad version of `parse_temperature_from_data`. -/
def parse_temperature_E (hex : List Char) : Except Unit (Option Int) :=
  if 10 ≤ hex.length then
    pyCatch (if pySlice hex 6 8 = posFlag ∨ pySlice hex 6 8 = negFlag then do
        let tv ← pyIntHex (pySlice hex 8 10)
        if tv ≤ 100 then
          pure (some (if pySlice hex 6 8 = negFlag then -(tv : Int) else (tv : Int)))
        else pure none
      else pure none) none
  else .ok none

/-- Lifting a pure value into `Except` yields a success. -/
theorem exceptPure_eq_ok {α : Type} (a : α) : (pure a : Except Unit α) = .ok a := rfl

/-- Binding a successful `Except` computation reduces to the continuation. -/
theorem exceptBind_ok {α β : Type} (a : α) (f : α → Except Unit β) :
    ((Except.ok a : Except Unit α) >>= f) = f a := rfl

/-- Binding a failed `Except` computation propagates the error. -/
theorem exceptBind_error {α β : Type} (f : α → Except Unit β) :
    ((Except.error () : Except Unit α) >>= f) = .error () := rfl

/-- A caught computation always succeeds. -/
theorem pyCatch_isOk {α : Type} (m : Except Unit α) (fb : α) :
    ∃ a, pyCatch m fb = .ok a := by
  cases m <;> exact ⟨_, rfl⟩

/-- A first-match loop over always-succeeding bodies succeeds. -/
theorem firstSomeE_isOk {α : Type} (f : Nat → Except Unit (Option α))
    (hf : ∀ i, ∃ o, f i = .ok o) : ∀ l, ∃ o, firstSomeE f l = .ok o := by
  intro l
  induction l with
  | nil => exact ⟨none, rfl⟩
  | cons i rest ih =>
    obtain ⟨o, ho⟩ := hf i
    cases o with
    | some v => exact ⟨some v, by rw [firstSomeE, ho, exceptBind_ok]; rfl⟩
    | none =>
      obtain ⟨o', ho'⟩ := ih
      exact ⟨o', by rw [firstSomeE, ho, exceptBind_ok]; exact ho'⟩

/-- Success of the accumulating hex parser is exactly digit-wise validity. -/
theorem hexCore_isSome_iff : ∀ (s : List Char) (acc : Nat),
    (hexCore s acc).isSome ↔ ∀ c ∈ s, (hexDigit? c).isSome := by
  intro s
  induction s with
  | nil => intro acc; simp [hexCore]
  | cons c cs ih =>
    intro acc
    cases h : hexDigit? c with
    | none => simp [hexCore, h]
    | some d => simp [hexCore, h, ih]

/-- Success of `int(s, 16)` is non-emptiness plus digit-wise validity. -/
theorem hexNat?_isSome_iff (s : List Char) :
    (hexNat? s).isSome ↔ ¬ s.isEmpty ∧ ∀ c ∈ s, (hexDigit? c).isSome := by
  by_cases h : s.isEmpty
  · simp [hexNat?, h]
  · simp [hexNat?, h, hexCore_isSome_iff]

/-- A 2-aligned window splits into its two halves. -/
theorem pySlice_window_split (hex : List Char) (i : Nat) :
    pySlice hex i (i + 4) = pySlice hex i (i + 2) ++ pySlice hex (i + 2) (i + 4) := by
  simp only [pySlice]
  rw [show i + 2 - i = 2 from by omega, show i + 4 - i = 4 from by omega,
    show i + 4 - (i + 2) = 2 from by omega, show (4 : Nat) = 2 + 2 from rfl,
    List.take_add]
  congr 1
  rw [List.drop_drop]

/-- When the big-endian digits of a window parse, so does the byte-swapped
little-endian rearrangement (the windows hold the same characters). -/
theorem le_window_parses (hex : List Char) (i v : Nat)
    (h : hexNat? (pySlice hex i (i + 4)) = some v) :
    ∃ w, hexNat? (pySlice hex (i + 2) (i + 4) ++ pySlice hex i (i + 2)) = some w := by
  have hs : (hexNat? (pySlice hex i (i + 4))).isSome := by rw [h]; rfl
  rw [hexNat?_isSome_iff, pySlice_window_split] at hs
  obtain ⟨hne, hall⟩ := hs
  rw [← Option.isSome_iff_exists, hexNat?_isSome_iff]
  constructor
  · simp only [List.isEmpty_iff, List.append_eq_nil] at hne ⊢
    tauto
  · intro c hc
    apply hall
    simp only [List.mem_append] at hc ⊢
    tauto

/-- One caught voltage-scan iteration agrees with the pure loop body. -/
theorem scanStep_eq (hex : List Char) (acc : List VoltCand) (i : Nat) :
    pyCatch (scanBodyRaw hex acc i) acc = .ok (scanWindow hex acc i) := by
  cases hbe : hexNat? (pySlice hex i (i + 4)) with
  | none =>
    simp only [scanBodyRaw, scanWindow, pyIntHex, hbe, exceptBind_error, pyCatch]
  | some be =>
    simp only [scanBodyRaw, scanWindow, pyIntHex, hbe, exceptBind_ok]
    by_cases hlen : i + 4 ≤ hex.length
    · obtain ⟨le, hle⟩ := le_window_parses hex i be hbe
      simp only [if_pos hlen, hle, exceptBind_ok]
      by_cases hr : 600 ≤ le ∧ le ≤ 2000
      · simp only [if_pos hr, pyCatch, exceptPure_eq_ok]
      · simp only [if_neg hr, pyCatch, exceptPure_eq_ok]
    · simp only [if_neg hlen, pyCatch, exceptPure_eq_ok]

/-- The caught voltage-scan loop agrees with the pure fold. -/
theorem scanFoldE_eq (hex : List Char) : ∀ (idxs : List Nat) (acc : List VoltCand),
    scanFoldE hex idxs acc = .ok (idxs.foldl (scanWindow hex) acc) := by
  intro idxs
  induction idxs with
  | nil => intro acc; rfl
  | cons i rest ih =>
    intro acc
    rw [scanFoldE, scanStep_eq, exceptBind_ok, List.foldl_cons, ih]

/-- C7: on every input string (arbitrary characters), the classifier's
extraction functions return normally: the timestamp parse yields a
timestamp (at worst the estimated fallback), the voltage scan yields the
pure candidate list, and the temperature parse yields an optional
temperature; no exception escapes the internal `try`/`except` blocks. -/
theorem classifier_never_raises (hex : List Char) (record_index : Nat)
    (now : ℚ) (nowInt : Nat) :
    (∃ t, parse_timestamp_from_data hex record_index now nowInt = .ok t) ∧
    extract_voltages_E hex = .ok (extract_voltages_from_response hex) ∧
    parse_temperature_E hex = .ok (parse_temperature_from_data hex) := by
  refine ⟨?_, ?_, ?_⟩
  · obtain ⟨o₁, ho₁⟩ := firstSomeE_isOk (tsBody1 hex nowInt)
      (fun i => pyCatch_isOk _ _) (pyRangeStep2 (hex.length - 7))
    rw [parse_timestamp_from_data, ho₁, exceptBind_ok]
    cases o₁ with
    | some t => exact ⟨t, rfl⟩
    | none =>
      obtain ⟨o₂, ho₂⟩ := firstSomeE_isOk (tsBody2 hex now)
        (fun i => pyCatch_isOk _ _) (pyRangeStep2 (hex.length - 3))
      rw [ho₂, exceptBind_ok]
      cases o₂ with
      | some t => exact ⟨t, rfl⟩
      | none => exact ⟨_, rfl⟩
  · rw [extract_voltages_E, scanFoldE_eq, exceptBind_ok, extract_voltages_from_response,
      exceptPure_eq_ok]
  · rw [parse_temperature_E, parse_temperature_from_data]
    by_cases hlen : 10 ≤ hex.length
    · rw [if_pos hlen, if_pos hlen]
      by_cases hflag : pySlice hex 6 8 = posFlag ∨ pySlice hex 6 8 = negFlag
      · rw [if_pos hflag, if_pos hflag]
        cases htv : hexNat? (pySlice hex 8 10) with
        | none => simp only [pyIntHex, htv, exceptBind_error, pyCatch]
        | some tv =>
          simp only [pyIntHex, htv, exceptBind_ok]
          by_cases hb : tv ≤ 100
          · simp only [if_pos hb, pyCatch, exceptPure_eq_ok]
          · simp only [if_neg hb, pyCatch, exceptPure_eq_ok]
      · rw [if_neg hflag, if_neg hflag]
        simp only [pyCatch, exceptPure_eq_ok]
    · rw [if_neg hlen, if_neg hlen]

/-! ## AES-128 block cipher

`decrypt_bm6` / `encrypt_bm6` (bm6_complete_history.py lines 38-44) and
`decrypt` / `encrypt` (bm6-battery-monitor.py lines 156-180) call
`AES.new(BM6_KEY, AES.MODE_CBC, 16 * b'\x00')` from PyCryptodome and
encrypt or decrypt a single 16-byte block.  The library implements the
AES-128 cipher of FIPS-197, which this section embeds directly: bytes are
naturals below 256, the field GF(2^8) uses the AES reduction polynomial
(`xtimeN`), the S-box is the multiplicative inverse followed by the
standard affine map, and the key schedule, cipher and inverse cipher follow
the standard round structure.  The embedding is validated below against the
FIPS-197 Appendix B test vector.
-/

instance : Std.Associative (fun a b : Nat => a ^^^ b) := ⟨Nat.xor_assoc⟩

instance : Std.Commutative (fun a b : Nat => a ^^^ b) := ⟨Nat.xor_comm⟩

/-- Xor of two bytes is a byte. -/
theorem xor_lt_256 {a b : Nat} (ha : a < 256) (hb : b < 256) : a ^^^ b < 256 :=
  Nat.xor_lt_two_pow (show a < 2 ^ 8 from ha) (show b < 2 ^ 8 from hb)

/-- Xoring twice with the same value is the identity. -/
theorem xor_cancel_right (x k : Nat) : (x ^^^ k) ^^^ k = x := by
  rw [Nat.xor_assoc, Nat.xor_self, Nat.xor_zero]

/-- Multiplication by `x` in GF(2^8) modulo the AES polynomial
`x^8 + x^4 + x^3 + x + 1` (0x11b). -/
def xtimeN (b : Nat) : Nat :=
  if b < 128 then 2 * b else (2 * b) % 256 ^^^ 27

/-- The `xtimeN` map sends bytes to bytes. -/
theorem xtimeN_lt : ∀ b < 256, xtimeN b < 256 := by decide

/-- Reduction modulo a power of two distributes over xor. -/
theorem xor_mod_two_pow (a b n : Nat) :
    (a ^^^ b) % 2 ^ n = a % 2 ^ n ^^^ b % 2 ^ n := by
  apply Nat.eq_of_testBit_eq
  intro i
  simp only [Nat.testBit_mod_two_pow, Nat.testBit_xor]
  by_cases h : i < n <;> simp [h]

/-- Doubling distributes over xor. -/
theorem two_mul_xor (a b : Nat) : 2 * (a ^^^ b) = 2 * a ^^^ 2 * b := by
  have h2 : ∀ x : Nat, 2 * x = x <<< 1 := fun x => by
    rw [Nat.shiftLeft_eq, pow_one, Nat.mul_comm]
  rw [h2, h2, h2]
  apply Nat.eq_of_testBit_eq
  intro i
  simp only [Nat.testBit_shiftLeft, Nat.testBit_xor]
  by_cases h : i ≥ 1 <;> simp [h]

/-- Bit 7 of a byte records whether it is at least 128. -/
theorem testBit7_of_lt {x : Nat} (hx : x < 256) :
    x.testBit 7 = decide (128 ≤ x) := by
  rw [Nat.testBit_to_div_mod, decide_eq_decide]
  have h : (2 : Nat) ^ 7 = 128 := rfl
  rw [h]
  omega

/-- The conditional reduction constant of `xtimeN` distributes over xor. -/
theorem reduction_term_xor {a b : Nat} (ha : a < 256) (hb : b < 256) :
    (if 128 ≤ (a ^^^ b) then 27 else 0) =
      (if 128 ≤ a then 27 else 0) ^^^ (if 128 ≤ b then 27 else 0) := by
  have hab : a ^^^ b < 256 := xor_lt_256 ha hb
  have h7 : decide (128 ≤ (a ^^^ b)) = xor (decide (128 ≤ a)) (decide (128 ≤ b)) := by
    rw [← testBit7_of_lt hab, Nat.testBit_xor, testBit7_of_lt ha, testBit7_of_lt hb]
  by_cases hA : 128 ≤ a <;> by_cases hB : 128 ≤ b
  · rw [decide_eq_true hA, decide_eq_true hB] at h7
    rw [if_neg (of_decide_eq_false h7), if_pos hA, if_pos hB, Nat.xor_self]
  · rw [decide_eq_true hA, decide_eq_false hB] at h7
    rw [if_pos (of_decide_eq_true h7), if_pos hA, if_neg hB, Nat.xor_zero]
  · rw [decide_eq_false hA, decide_eq_true hB] at h7
    rw [if_pos (of_decide_eq_true h7), if_neg hA, if_pos hB, Nat.zero_xor]
  · rw [decide_eq_false hA, decide_eq_false hB] at h7
    rw [if_neg (of_decide_eq_false h7), if_neg hA, if_neg hB, Nat.xor_zero]

/-- Unconditional form of `xtimeN` on bytes. -/
theorem xtimeN_eq {x : Nat} (hx : x < 256) :
    xtimeN x = (2 * x) % 256 ^^^ (if 128 ≤ x then 27 else 0) := by
  rw [xtimeN]
  by_cases h : x < 128
  · rw [if_pos h, if_neg (by omega), Nat.mod_eq_of_lt (by omega), Nat.xor_zero]
  · rw [if_neg h, if_pos (by omega)]

/-- The `xtimeN` map is additive over GF(2^8). -/
theorem xtimeN_xor {a b : Nat} (ha : a < 256) (hb : b < 256) :
    xtimeN (a ^^^ b) = xtimeN a ^^^ xtimeN b := by
  have hab : a ^^^ b < 256 := xor_lt_256 ha hb
  rw [xtimeN_eq hab, xtimeN_eq ha, xtimeN_eq hb, two_mul_xor,
    show (256 : Nat) = 2 ^ 8 from rfl, xor_mod_two_pow, reduction_term_xor ha hb]
  ac_rfl

/-- Russian-peasant multiplication by a natural coefficient in GF(2^8),
with explicit fuel (8 suffices for coefficients below 256). -/
def gfMulAux : Nat → Nat → Nat → Nat
  | 0, _, _ => 0
  | f + 1, a, b =>
    if a = 0 then 0
    else (if a % 2 = 1 then b else 0) ^^^ gfMulAux f (a / 2) (xtimeN b)

/-- Multiplication in GF(2^8) (second operand a byte). -/
def gfMulN (a b : Nat) : Nat := gfMulAux 8 a b

/-- GF(2^8) products of bytes are bytes. -/
theorem gfMulAux_lt : ∀ (f a b : Nat), b < 256 → gfMulAux f a b < 256 := by
  intro f
  induction f with
  | zero => intro a b _; simp [gfMulAux]
  | succ f ih =>
    intro a b hb
    rw [gfMulAux]
    by_cases ha : a = 0
    · simp [ha]
    · rw [if_neg ha]
      refine xor_lt_256 ?_ (ih _ _ (xtimeN_lt b hb))
      by_cases hodd : a % 2 = 1 <;> simp [hodd, hb]

/-- GF(2^8) products of bytes are bytes (coefficient form). -/
theorem gfMulN_lt (a : Nat) {b : Nat} (hb : b < 256) : gfMulN a b < 256 :=
  gfMulAux_lt 8 a b hb

/-- GF(2^8) multiplication distributes over xor. -/
theorem gfMulAux_xor : ∀ (f a : Nat) {x y : Nat}, x < 256 → y < 256 →
    gfMulAux f a (x ^^^ y) = gfMulAux f a x ^^^ gfMulAux f a y := by
  intro f
  induction f with
  | zero => intro a x y _ _; simp [gfMulAux]
  | succ f ih =>
    intro a x y hx hy
    by_cases ha : a = 0
    · simp [gfMulAux, ha]
    · simp only [gfMulAux, if_neg ha, xtimeN_xor hx hy,
        ih (a / 2) (xtimeN_lt x hx) (xtimeN_lt y hy)]
      by_cases hodd : a % 2 = 1
      · simp only [if_pos hodd]
        ac_rfl
      · simp only [if_neg hodd, Nat.zero_xor]

/-- GF(2^8) multiplication by a coefficient is additive on bytes. -/
theorem gfMulN_xor (a : Nat) {x y : Nat} (hx : x < 256) (hy : y < 256) :
    gfMulN a (x ^^^ y) = gfMulN a x ^^^ gfMulN a y :=
  gfMulAux_xor 8 a hx hy

/-- Squaring in GF(2^8). -/
def gfSquare (x : Nat) : Nat := gfMulN x x

/-- Square-and-multiply exponentiation in GF(2^8) (fuel 8 covers exponents
below 2^8). -/
def gfPowAux : Nat → Nat → Nat → Nat
  | 0, _, _ => 1
  | f + 1, b, n =>
    if n = 0 then 1
    else
      let r := gfPowAux f (gfSquare b) (n / 2)
      if n % 2 = 1 then gfMulN b r else r

/-- Multiplicative inverse in GF(2^8) (`b^254`; maps 0 to 0), as used by
the AES S-box. -/
def gfInv (b : Nat) : Nat := gfPowAux 8 b 254

/-- Left rotation of a byte by `k` bits. -/
def rotlN (b k : Nat) : Nat :=
  ((b * 2 ^ k) % 256) ^^^ (b / 2 ^ (8 - k))

/-- The AES S-box: multiplicative inverse followed by the affine map
`x ⊕ rotl(x,1) ⊕ rotl(x,2) ⊕ rotl(x,3) ⊕ rotl(x,4) ⊕ 0x63`. -/
def sboxN (b : Nat) : Nat :=
  let x := gfInv b
  x ^^^ rotlN x 1 ^^^ rotlN x 2 ^^^ rotlN x 3 ^^^ rotlN x 4 ^^^ 99

/-- The inverse AES S-box: inverse affine map
`rotl(s,1) ⊕ rotl(s,3) ⊕ rotl(s,6) ⊕ 0x05` followed by inversion. -/
def invSboxN (s : Nat) : Nat :=
  gfInv (rotlN s 1 ^^^ rotlN s 3 ^^^ rotlN s 6 ^^^ 5)

/-- The S-box sends 0x53 to 0xed (the FIPS-197 SubBytes example) and 0 to
0x63, and its outputs are bytes. -/
theorem sboxN_examples : sboxN 83 = 237 ∧ sboxN 0 = 99 := by decide

/-- S-box outputs are bytes. -/
theorem sboxN_lt : ∀ b < 256, sboxN b < 256 := by decide

/-- The inverse S-box inverts the S-box on every byte. -/
theorem sboxN_inv : ∀ b < 256, invSboxN (sboxN b) = b := by decide

/-- A 4-byte word (a state column or key-schedule word). -/
structure GFCol where
  c0 : Nat
  c1 : Nat
  c2 : Nat
  c3 : Nat
deriving DecidableEq

/-- All four entries of a column are bytes. -/
def ColBytes (w : GFCol) : Prop :=
  w.c0 < 256 ∧ w.c1 < 256 ∧ w.c2 < 256 ∧ w.c3 < 256

instance (w : GFCol) : Decidable (ColBytes w) := by unfold ColBytes; infer_instance

/-- Componentwise xor of columns. -/
def colXor (x y : GFCol) : GFCol :=
  ⟨x.c0 ^^^ y.c0, x.c1 ^^^ y.c1, x.c2 ^^^ y.c2, x.c3 ^^^ y.c3⟩

/-- Column xor preserves byte bounds. -/
theorem colXor_bytes {x y : GFCol} (hx : ColBytes x) (hy : ColBytes y) :
    ColBytes (colXor x y) :=
  ⟨xor_lt_256 hx.1 hy.1, xor_lt_256 hx.2.1 hy.2.1,
   xor_lt_256 hx.2.2.1 hy.2.2.1, xor_lt_256 hx.2.2.2 hy.2.2.2⟩

/-- Xoring a column twice with the same word is the identity. -/
theorem colXor_cancel (x k : GFCol) : colXor (colXor x k) k = x := by
  cases x; cases k
  simp [colXor, xor_cancel_right]

/-- The MixColumns transformation of one column (FIPS-197 section 5.1.3). -/
def mixCol (v : GFCol) : GFCol :=
  ⟨ gfMulN 2 v.c0 ^^^ gfMulN 3 v.c1 ^^^ v.c2 ^^^ v.c3
  , v.c0 ^^^ gfMulN 2 v.c1 ^^^ gfMulN 3 v.c2 ^^^ v.c3
  , v.c0 ^^^ v.c1 ^^^ gfMulN 2 v.c2 ^^^ gfMulN 3 v.c3
  , gfMulN 3 v.c0 ^^^ v.c1 ^^^ v.c2 ^^^ gfMulN 2 v.c3 ⟩

/-- The InvMixColumns transformation of one column (FIPS-197 section 5.3.3). -/
def invMixCol (v : GFCol) : GFCol :=
  ⟨ gfMulN 14 v.c0 ^^^ gfMulN 11 v.c1 ^^^ gfMulN 13 v.c2 ^^^ gfMulN 9 v.c3
  , gfMulN 9 v.c0 ^^^ gfMulN 14 v.c1 ^^^ gfMulN 11 v.c2 ^^^ gfMulN 13 v.c3
  , gfMulN 13 v.c0 ^^^ gfMulN 9 v.c1 ^^^ gfMulN 14 v.c2 ^^^ gfMulN 11 v.c3
  , gfMulN 11 v.c0 ^^^ gfMulN 13 v.c1 ^^^ gfMulN 9 v.c2 ^^^ gfMulN 14 v.c3 ⟩

/-- MixColumns preserves byte bounds. -/
theorem mixCol_bytes {v : GFCol} (hv : ColBytes v) : ColBytes (mixCol v) := by
  obtain ⟨h0, h1, h2, h3⟩ := hv
  exact ⟨xor_lt_256 (xor_lt_256 (xor_lt_256 (gfMulN_lt 2 h0) (gfMulN_lt 3 h1)) h2) h3,
         xor_lt_256 (xor_lt_256 (xor_lt_256 h0 (gfMulN_lt 2 h1)) (gfMulN_lt 3 h2)) h3,
         xor_lt_256 (xor_lt_256 (xor_lt_256 h0 h1) (gfMulN_lt 2 h2)) (gfMulN_lt 3 h3),
         xor_lt_256 (xor_lt_256 (xor_lt_256 (gfMulN_lt 3 h0) h1) h2) (gfMulN_lt 2 h3)⟩

/-- MixColumns is additive on byte columns. -/
theorem mixCol_add {x y : GFCol} (hx : ColBytes x) (hy : ColBytes y) :
    mixCol (colXor x y) = colXor (mixCol x) (mixCol y) := by
  obtain ⟨hx0, hx1, hx2, hx3⟩ := hx
  obtain ⟨hy0, hy1, hy2, hy3⟩ := hy
  simp only [mixCol, colXor, GFCol.mk.injEq,
    gfMulN_xor 2 hx0 hy0, gfMulN_xor 3 hx1 hy1, gfMulN_xor 2 hx1 hy1,
    gfMulN_xor 3 hx2 hy2, gfMulN_xor 2 hx2 hy2, gfMulN_xor 3 hx3 hy3,
    gfMulN_xor 2 hx3 hy3, gfMulN_xor 3 hx0 hy0]
  refine ⟨?_, ?_, ?_, ?_⟩ <;> ac_rfl

/-- InvMixColumns is additive on byte columns. -/
theorem invMixCol_add {x y : GFCol} (hx : ColBytes x) (hy : ColBytes y) :
    invMixCol (colXor x y) = colXor (invMixCol x) (invMixCol y) := by
  obtain ⟨hx0, hx1, hx2, hx3⟩ := hx
  obtain ⟨hy0, hy1, hy2, hy3⟩ := hy
  simp only [invMixCol, colXor, GFCol.mk.injEq,
    gfMulN_xor 14 hx0 hy0, gfMulN_xor 11 hx1 hy1, gfMulN_xor 13 hx2 hy2,
    gfMulN_xor 9 hx3 hy3, gfMulN_xor 9 hx0 hy0, gfMulN_xor 14 hx1 hy1,
    gfMulN_xor 11 hx2 hy2, gfMulN_xor 13 hx3 hy3, gfMulN_xor 13 hx0 hy0,
    gfMulN_xor 9 hx1 hy1, gfMulN_xor 14 hx2 hy2, gfMulN_xor 11 hx3 hy3,
    gfMulN_xor 11 hx0 hy0, gfMulN_xor 13 hx1 hy1, gfMulN_xor 9 hx2 hy2,
    gfMulN_xor 14 hx3 hy3]
  refine ⟨?_, ?_, ?_, ?_⟩ <;> ac_rfl

/-- InvMixColumns inverts MixColumns on the first basis component. -/
theorem invMixCol_mixCol_b0 : ∀ a < 256, invMixCol (mixCol ⟨a, 0, 0, 0⟩) = ⟨a, 0, 0, 0⟩ := by
  decide

/-- InvMixColumns inverts MixColumns on the second basis component. -/
theorem invMixCol_mixCol_b1 : ∀ a < 256, invMixCol (mixCol ⟨0, a, 0, 0⟩) = ⟨0, a, 0, 0⟩ := by
  decide

/-- InvMixColumns inverts MixColumns on the third basis component. -/
theorem invMixCol_mixCol_b2 : ∀ a < 256, invMixCol (mixCol ⟨0, 0, a, 0⟩) = ⟨0, 0, a, 0⟩ := by
  decide

/-- InvMixColumns inverts MixColumns on the fourth basis component. -/
theorem invMixCol_mixCol_b3 : ∀ a < 256, invMixCol (mixCol ⟨0, 0, 0, a⟩) = ⟨0, 0, 0, a⟩ := by
  decide

/-- Every column is the xor of its four basis components. -/
theorem col_decompose (v : GFCol) :
    v = colXor ⟨v.c0, 0, 0, 0⟩
          (colXor ⟨0, v.c1, 0, 0⟩ (colXor ⟨0, 0, v.c2, 0⟩ ⟨0, 0, 0, v.c3⟩)) := by
  cases v
  simp [colXor]

/-- InvMixColumns inverts MixColumns on every byte column. -/
theorem invMixCol_mixCol {v : GFCol} (hv : ColBytes v) : invMixCol (mixCol v) = v := by
  obtain ⟨h0, h1, h2, h3⟩ := hv
  have hz : (0 : Nat) < 256 := by norm_num
  have cb0 : ColBytes ⟨v.c0, 0, 0, 0⟩ := ⟨h0, hz, hz, hz⟩
  have cb1 : ColBytes ⟨0, v.c1, 0, 0⟩ := ⟨hz, h1, hz, hz⟩
  have cb2 : ColBytes ⟨0, 0, v.c2, 0⟩ := ⟨hz, hz, h2, hz⟩
  have cb3 : ColBytes ⟨0, 0, 0, v.c3⟩ := ⟨hz, hz, hz, h3⟩
  have h23 := colXor_bytes cb2 cb3
  have h123 := colXor_bytes cb1 h23
  conv_lhs => rw [col_decompose v]
  rw [mixCol_add cb0 h123, mixCol_add cb1 h23, mixCol_add cb2 cb3,
    invMixCol_add (mixCol_bytes cb0)
      (colXor_bytes (mixCol_bytes cb1) (colXor_bytes (mixCol_bytes cb2) (mixCol_bytes cb3))),
    invMixCol_add (mixCol_bytes cb1) (colXor_bytes (mixCol_bytes cb2) (mixCol_bytes cb3)),
    invMixCol_add (mixCol_bytes cb2) (mixCol_bytes cb3),
    invMixCol_mixCol_b0 v.c0 h0, invMixCol_mixCol_b1 v.c1 h1,
    invMixCol_mixCol_b2 v.c2 h2, invMixCol_mixCol_b3 v.c3 h3, ← col_decompose v]

/-- A 16-byte AES state, held as four columns in flat byte order (byte `i`
of the block is entry `i % 4` of column `i / 4`, the column-major state
layout of FIPS-197). -/
structure AESState where
  col0 : GFCol
  col1 : GFCol
  col2 : GFCol
  col3 : GFCol
deriving DecidableEq

/-- All sixteen entries of a state are bytes. -/
def StateBytes (s : AESState) : Prop :=
  ColBytes s.col0 ∧ ColBytes s.col1 ∧ ColBytes s.col2 ∧ ColBytes s.col3

instance (s : AESState) : Decidable (StateBytes s) := by unfold StateBytes; infer_instance

/-- SubBytes on one word. -/
def subWord (w : GFCol) : GFCol := ⟨sboxN w.c0, sboxN w.c1, sboxN w.c2, sboxN w.c3⟩

/-- InvSubBytes on one word. -/
def invSubWord (w : GFCol) : GFCol :=
  ⟨invSboxN w.c0, invSboxN w.c1, invSboxN w.c2, invSboxN w.c3⟩

/-- The SubBytes step. -/
def subBytes (s : AESState) : AESState :=
  ⟨subWord s.col0, subWord s.col1, subWord s.col2, subWord s.col3⟩

/-- The InvSubBytes step. -/
def invSubBytes (s : AESState) : AESState :=
  ⟨invSubWord s.col0, invSubWord s.col1, invSubWord s.col2, invSubWord s.col3⟩

/-- The ShiftRows step: row `r` of the column-major state rotates left by
`r` positions. -/
def shiftRows (s : AESState) : AESState :=
  ⟨⟨s.col0.c0, s.col1.c1, s.col2.c2, s.col3.c3⟩,
   ⟨s.col1.c0, s.col2.c1, s.col3.c2, s.col0.c3⟩,
   ⟨s.col2.c0, s.col3.c1, s.col0.c2, s.col1.c3⟩,
   ⟨s.col3.c0, s.col0.c1, s.col1.c2, s.col2.c3⟩⟩

/-- The InvShiftRows step: row `r` rotates right by `r` positions. -/
def invShiftRows (s : AESState) : AESState :=
  ⟨⟨s.col0.c0, s.col3.c1, s.col2.c2, s.col1.c3⟩,
   ⟨s.col1.c0, s.col0.c1, s.col3.c2, s.col2.c3⟩,
   ⟨s.col2.c0, s.col1.c1, s.col0.c2, s.col3.c3⟩,
   ⟨s.col3.c0, s.col2.c1, s.col1.c2, s.col0.c3⟩⟩

/-- The AddRoundKey step (also the CBC whitening xor). -/
def addRoundKey (k s : AESState) : AESState :=
  ⟨colXor s.col0 k.col0, colXor s.col1 k.col1, colXor s.col2 k.col2, colXor s.col3 k.col3⟩

/-- The MixColumns step. -/
def mixColumns (s : AESState) : AESState :=
  ⟨mixCol s.col0, mixCol s.col1, mixCol s.col2, mixCol s.col3⟩

/-- The InvMixColumns step. -/
def invMixColumns (s : AESState) : AESState :=
  ⟨invMixCol s.col0, invMixCol s.col1, invMixCol s.col2, invMixCol s.col3⟩

/-- InvShiftRows inverts ShiftRows. -/
theorem invShiftRows_shiftRows (s : AESState) : invShiftRows (shiftRows s) = s := rfl

/-- InvSubBytes inverts SubBytes on one byte word. -/
theorem invSubWord_subWord {w : GFCol} (hw : ColBytes w) : invSubWord (subWord w) = w := by
  obtain ⟨h0, h1, h2, h3⟩ := hw
  cases w
  simp only [subWord, invSubWord]
  rw [sboxN_inv _ h0, sboxN_inv _ h1, sboxN_inv _ h2, sboxN_inv _ h3]

/-- InvSubBytes inverts SubBytes on byte states. -/
theorem invSubBytes_subBytes {s : AESState} (hs : StateBytes s) :
    invSubBytes (subBytes s) = s := by
  obtain ⟨h0, h1, h2, h3⟩ := hs
  cases s
  simp only [subBytes, invSubBytes]
  rw [invSubWord_subWord h0, invSubWord_subWord h1, invSubWord_subWord h2,
    invSubWord_subWord h3]

/-- Adding the same round key twice is the identity. -/
theorem addRoundKey_cancel (k s : AESState) : addRoundKey k (addRoundKey k s) = s := by
  cases s; cases k
  simp [addRoundKey, colXor_cancel]

/-- InvMixColumns inverts MixColumns on byte states. -/
theorem invMixColumns_mixColumns {s : AESState} (hs : StateBytes s) :
    invMixColumns (mixColumns s) = s := by
  obtain ⟨h0, h1, h2, h3⟩ := hs
  cases s
  simp only [mixColumns, invMixColumns]
  rw [invMixCol_mixCol h0, invMixCol_mixCol h1, invMixCol_mixCol h2, invMixCol_mixCol h3]

/-- SubBytes preserves byte bounds on a word. -/
theorem subWord_bytes {w : GFCol} (hw : ColBytes w) : ColBytes (subWord w) :=
  ⟨sboxN_lt _ hw.1, sboxN_lt _ hw.2.1, sboxN_lt _ hw.2.2.1, sboxN_lt _ hw.2.2.2⟩

/-- SubBytes preserves byte bounds. -/
theorem subBytes_bytes {s : AESState} (hs : StateBytes s) : StateBytes (subBytes s) :=
  ⟨subWord_bytes hs.1, subWord_bytes hs.2.1, subWord_bytes hs.2.2.1, subWord_bytes hs.2.2.2⟩

/-- ShiftRows preserves byte bounds. -/
theorem shiftRows_bytes {s : AESState} (hs : StateBytes s) : StateBytes (shiftRows s) := by
  obtain ⟨⟨a0, a1, a2, a3⟩, ⟨b0, b1, b2, b3⟩, ⟨c0, c1, c2, c3⟩, ⟨d0, d1, d2, d3⟩⟩ := hs
  exact ⟨⟨a0, b1, c2, d3⟩, ⟨b0, c1, d2, a3⟩, ⟨c0, d1, a2, b3⟩, ⟨d0, a1, b2, c3⟩⟩

/-- AddRoundKey preserves byte bounds. -/
theorem addRoundKey_bytes {k s : AESState} (hk : StateBytes k) (hs : StateBytes s) :
    StateBytes (addRoundKey k s) :=
  ⟨colXor_bytes hs.1 hk.1, colXor_bytes hs.2.1 hk.2.1,
   colXor_bytes hs.2.2.1 hk.2.2.1, colXor_bytes hs.2.2.2 hk.2.2.2⟩

/-- MixColumns preserves byte bounds. -/
theorem mixColumns_bytes {s : AESState} (hs : StateBytes s) : StateBytes (mixColumns s) :=
  ⟨mixCol_bytes hs.1, mixCol_bytes hs.2.1, mixCol_bytes hs.2.2.1, mixCol_bytes hs.2.2.2⟩

/-- Rounds 1 to `n` of the AES cipher. -/
def encRounds (rk : Nat → AESState) : Nat → AESState → AESState
  | 0, s => s
  | n + 1, s => addRoundKey (rk (n + 1)) (mixColumns (shiftRows (subBytes (encRounds rk n s))))

/-- The AES-128 cipher (FIPS-197 section 5.1): initial AddRoundKey, nine
full rounds, and a final round without MixColumns. -/
def aesEncrypt (rk : Nat → AESState) (p : AESState) : AESState :=
  addRoundKey (rk 10) (shiftRows (subBytes (encRounds rk 9 (addRoundKey (rk 0) p))))

/-- Rounds `n` down to 1 of the AES inverse cipher, followed by the final
InvShiftRows, InvSubBytes, AddRoundKey with round key 0. -/
def decLoop (rk : Nat → AESState) : Nat → AESState → AESState
  | 0, s => addRoundKey (rk 0) (invSubBytes (invShiftRows s))
  | n + 1, s => decLoop rk n (invMixColumns (addRoundKey (rk (n + 1)) (invSubBytes (invShiftRows s))))

/-- The AES-128 inverse cipher (FIPS-197 section 5.3). -/
def aesDecrypt (rk : Nat → AESState) (c : AESState) : AESState :=
  decLoop rk 9 (addRoundKey (rk 10) c)

/-- The cipher rounds preserve byte bounds. -/
theorem encRounds_bytes (rk : Nat → AESState) (hk : ∀ i, StateBytes (rk i))
    {s : AESState} (hs : StateBytes s) : ∀ n, StateBytes (encRounds rk n s) := by
  intro n
  induction n with
  | zero => exact hs
  | succ n ih =>
    exact addRoundKey_bytes (hk (n + 1)) (mixColumns_bytes (shiftRows_bytes (subBytes_bytes ih)))

/-- The inverse-cipher loop undoes the cipher rounds. -/
theorem decLoop_encRounds (rk : Nat → AESState) (hk : ∀ i, StateBytes (rk i)) :
    ∀ (n : Nat) (p : AESState), StateBytes p →
      decLoop rk n (shiftRows (subBytes (encRounds rk n (addRoundKey (rk 0) p)))) = p := by
  intro n
  induction n with
  | zero =>
    intro p hp
    simp only [encRounds, decLoop]
    rw [invShiftRows_shiftRows, invSubBytes_subBytes (addRoundKey_bytes (hk 0) hp),
      addRoundKey_cancel]
  | succ n ih =>
    intro p hp
    have hs0 : StateBytes (addRoundKey (rk 0) p) := addRoundKey_bytes (hk 0) hp
    have ht : StateBytes (encRounds rk n (addRoundKey (rk 0) p)) := encRounds_bytes rk hk hs0 n
    have hsh : StateBytes (shiftRows (subBytes (encRounds rk n (addRoundKey (rk 0) p)))) :=
      shiftRows_bytes (subBytes_bytes ht)
    have henc1 : StateBytes (addRoundKey (rk (n + 1))
        (mixColumns (shiftRows (subBytes (encRounds rk n (addRoundKey (rk 0) p)))))) :=
      addRoundKey_bytes (hk (n + 1)) (mixColumns_bytes hsh)
    simp only [encRounds, decLoop]
    rw [invShiftRows_shiftRows, invSubBytes_subBytes henc1, addRoundKey_cancel,
      invMixColumns_mixColumns hsh]
    exact ih p hp

/-- The AES inverse cipher inverts the cipher on every byte state, for any
round-key sequence of byte states. -/
theorem aesDecrypt_aesEncrypt (rk : Nat → AESState) (hk : ∀ i, StateBytes (rk i))
    {p : AESState} (hp : StateBytes p) : aesDecrypt rk (aesEncrypt rk p) = p := by
  rw [aesEncrypt, aesDecrypt, addRoundKey_cancel]
  exact decLoop_encRounds rk hk 9 p hp

/-- The RotWord operation of the key schedule. -/
def rotWord (w : GFCol) : GFCol := ⟨w.c1, w.c2, w.c3, w.c0⟩

/-- The round constants of the key schedule. -/
def rconByte (i : Nat) : Nat := [0, 1, 2, 4, 8, 16, 32, 64, 128, 27, 54].getD i 0

/-- A round constant as a word. -/
def rconWord (i : Nat) : GFCol := ⟨rconByte i, 0, 0, 0⟩

/-- One round of the key expansion: words `4r..4r+3` from the previous
four words (FIPS-197 section 5.2). -/
def nextRoundWords (r : Nat) (w : GFCol × GFCol × GFCol × GFCol) :
    GFCol × GFCol × GFCol × GFCol :=
  let w4 := colXor (colXor w.1 (subWord (rotWord w.2.2.2))) (rconWord r)
  let w5 := colXor w.2.1 w4
  let w6 := colXor w.2.2.1 w5
  let w7 := colXor w.2.2.2 w6
  (w4, w5, w6, w7)

/-- The all-zero word. -/
def zeroCol : GFCol := ⟨0, 0, 0, 0⟩

/-- The all-zero state. -/
def zeroState : AESState := ⟨zeroCol, zeroCol, zeroCol, zeroCol⟩

/-- Round-key states generated from a window of four schedule words. -/
def ksRounds : Nat → Nat → GFCol × GFCol × GFCol × GFCol → List AESState
  | 0, _, w => [⟨w.1, w.2.1, w.2.2.1, w.2.2.2⟩]
  | f + 1, r, w => ⟨w.1, w.2.1, w.2.2.1, w.2.2.2⟩ :: ksRounds f (r + 1) (nextRoundWords r w)

/-- Word `j` of a 16-byte key. -/
def keyWord (key : List Nat) (j : Nat) : GFCol :=
  ⟨key.getD (4 * j) 0, key.getD (4 * j + 1) 0, key.getD (4 * j + 2) 0, key.getD (4 * j + 3) 0⟩

/-- The eleven AES-128 round keys of a key. -/
def roundKeys (key : List Nat) : List AESState :=
  ksRounds 10 1 (keyWord key 0, keyWord key 1, keyWord key 2, keyWord key 3)

/-- Round key `r` of a key (the all-zero state beyond round 10). -/
def keySchedule (key : List Nat) (r : Nat) : AESState :=
  (roundKeys key).getD r zeroState

/-- The fixed BM6 encryption key
`bytearray([108, 101, 97, 103, 101, 110, 100, 255, 254, 48, 49, 48, 48, 48, 48, 57])`. -/
def BM6_KEY : List Nat := [108, 101, 97, 103, 101, 110, 100, 255, 254, 48, 49, 48, 48, 48, 48, 57]

/-- The BM6 round keys. -/
def bm6Rk (r : Nat) : AESState := keySchedule BM6_KEY r

/-- There are eleven BM6 round keys. -/
theorem roundKeys_BM6_length : (roundKeys BM6_KEY).length = 11 := rfl

/-- The first eleven BM6 round keys are byte states. -/
theorem bm6Rk_bytes_lt : ∀ i < 11, StateBytes (bm6Rk i) := by decide

/-- The all-zero state is a byte state. -/
theorem zeroState_bytes : StateBytes zeroState := by decide

/-- Every BM6 round key is a byte state. -/
theorem bm6Rk_bytes : ∀ i, StateBytes (bm6Rk i) := by
  intro i
  by_cases h : i < 11
  · exact bm6Rk_bytes_lt i h
  · have hd : (roundKeys BM6_KEY).getD i zeroState = zeroState :=
      List.getD_eq_default _ _ (by rw [roundKeys_BM6_length]; omega)
    show StateBytes (keySchedule BM6_KEY i)
    rw [keySchedule, hd]
    exact zeroState_bytes

/-- The 16-byte key of the FIPS-197 Appendix B example. -/
def fipsKey : List Nat := [0, 1, 2, 3, 4, 5, 6, 7, 8, 9, 10, 11, 12, 13, 14, 15]

/-- Validation of the embedded cipher against the FIPS-197 Appendix B test
vector: AES-128 of `00112233445566778899aabbccddeeff` under key
`000102030405060708090a0b0c0d0e0f` is `69c4e0d86a7b0430d8cdb78070b4c55a`. -/
theorem aes_fips197_vector :
    aesEncrypt (keySchedule fipsKey)
      ⟨⟨0, 17, 34, 51⟩, ⟨68, 85, 102, 119⟩, ⟨136, 153, 170, 187⟩, ⟨204, 221, 238, 255⟩⟩ =
      ⟨⟨105, 196, 224, 216⟩, ⟨106, 123, 4, 48⟩, ⟨216, 205, 183, 128⟩, ⟨112, 180, 197, 90⟩⟩ := by
  decide

/-- Hex formatting digits of Python's `bytes.hex()`. -/
def hexDigits : List Char := "0123456789abcdef".toList

/-- Lowercase hex character of a nibble. -/
def hexChar (n : Nat) : Char := hexDigits.getD n ('0')

/-- Two lowercase hex characters of a byte. -/
def byteHex (b : Nat) : List Char := [hexChar (b / 16), hexChar (b % 16)]

/-- Hex characters of a word. -/
def colHex (w : GFCol) : List Char :=
  byteHex w.c0 ++ byteHex w.c1 ++ byteHex w.c2 ++ byteHex w.c3

/-- Python's `bytes.hex()` of a 16-byte state. -/
def stateToHex (s : AESState) : List Char :=
  colHex s.col0 ++ colHex s.col1 ++ colHex s.col2 ++ colHex s.col3

/-- Embedding of `encrypt_bm6` (bm6_complete_history.py lines 42-44):
CBC-encrypt one 16-byte block under the fixed BM6 key with an all-zero IV,
so the block is whitened with the zero IV and passed through the cipher. -/
def encrypt_bm6 (p : AESState) : AESState :=
  aesEncrypt bm6Rk (addRoundKey zeroState p)

/-- Embedding of `decrypt_bm6` (bm6_complete_history.py lines 38-40):
CBC-decrypt one 16-byte block under the fixed BM6 key with an all-zero IV
and return the plaintext as a lowercase hex string (`.hex()`). -/
def decrypt_bm6 (c : AESState) : List Char :=
  stateToHex (addRoundKey zeroState (aesDecrypt bm6Rk c))

/-- C1: decrypting the encryption of any 16-byte plaintext block under the
fixed BM6 key (CBC mode, all-zero IV, single block, no padding) returns the
hex string of the original block. -/
theorem decrypt_encrypt_roundtrip (p : AESState) (hp : StateBytes p) :
    decrypt_bm6 (encrypt_bm6 p) = stateToHex p := by
  rw [decrypt_bm6, encrypt_bm6,
    aesDecrypt_aesEncrypt bm6Rk bm6Rk_bytes (addRoundKey_bytes zeroState_bytes hp),
    addRoundKey_cancel]

/-- The live-reading command block `d1550700000000000000000000000000`. -/
def roundtripSample : AESState :=
  ⟨⟨209, 85, 7, 0⟩, ⟨0, 0, 0, 0⟩, ⟨0, 0, 0, 0⟩, ⟨0, 0, 0, 0⟩⟩

/-- The sample block renders to the live-reading command hex string. -/
theorem roundtripSample_hex :
    stateToHex roundtripSample = "d1550700000000000000000000000000".toList := rfl

/-- Witness for C1 on the live-reading command block. -/
theorem decrypt_encrypt_roundtrip_witness :
    StateBytes roundtripSample ∧
    decrypt_bm6 (encrypt_bm6 roundtripSample) = stateToHex roundtripSample :=
  ⟨by decide, decrypt_encrypt_roundtrip roundtripSample (by decide)⟩

end BM6
